import Mathlib

/-!
Verification of the ETM (Euclidean Timing Mechanics) simulation engine.

This file shallowly embeds the engine of `src/etm/core.py` (module namespace
`ETM.Core`), the detection / conflict-resolution subsystem of the legacy
monolith `src/current_monolith/versions/002/etm_framework.py` (namespace
`ETM.V002`), and the composite-decay law of `src/etm/particles.py` together
with its caller in `versions/005/etm_framework.py` (namespace `ETM.Decay`),
and proves (or refutes) the specified properties of those definitions.

Numeric values (Python floats) are modelled by an arbitrary linear ordered
field `α` (instantiated at `ℚ` for concrete evaluation and at `ℝ` for the
exponential decay law); the float operation `x ** 0.5` appearing in the
energy calculation is modelled by a square-root function threaded through
the configuration, and `math.exp` by an explicit function argument, so that
every definition stays executable.
-/

namespace ETM

/-- A lattice position, mirroring the `Tuple[int, int, int]` keys. -/
abbrev Pos : Type := ℤ × ℤ × ℤ

/-- `ReturnStatus` enum from `src/etm/config.py`. -/
inductive ReturnStatus : Type
| pending
| allowed
| denied
| failed
| complete
| coexisting
deriving DecidableEq, Repr

/-- `ConflictResolutionMethod` enum from `src/etm/config.py`. -/
inductive ConflictResolutionMethod : Type
| coexistence
| symbolicMutation
| identityRename
| phaseSeparation
| exclusion
deriving DecidableEq, Repr

/-- `DetectionEventType` enum from `src/etm/config.py`. -/
inductive DetectionEventType : Type
| photonInteraction
| particleCollision
| measurementProbe
| energyTransition
deriving DecidableEq, Repr

/-- Python float modulo one: `x % 1.0`, i.e. the fractional part, in `[0, 1)`. -/
def mod1 {α : Type} [LinearOrderedField α] [FloorRing α] (x : α) : α :=
  Int.fract x

/-- Entry of `Identity.mutation_history` (the dict appended by
`apply_symbolic_mutation` in `src/etm/core.py`). -/
structure MutationRecord : Type where
  tick : ℕ
  mutation_type : String
  original : String
  new : String
  tag : Option String
  validation_status : String
deriving DecidableEq, Repr

/-- The slice of `ParticleTimingPattern` (`src/etm/particles.py`) that the
engine reads: the central timing rate and, for photons, the energy content
set by `set_photon_energy`. -/
structure ParticlePattern (α : Type) : Type where
  core_timing_rate : α
  energy_content : α
deriving DecidableEq, Repr

/-- `ParticleTimingPattern.calculate_stability_score` from
`src/etm/particles.py`:
`core_timing_rate * 0.8 + min(echo_field_strength / 100, 1) * 0.2`. -/
def ParticlePattern.calculate_stability_score {α : Type} [LinearOrderedField α]
    (p : ParticlePattern α) (echo_field_strength : α) : α :=
  p.core_timing_rate * (8 / 10) + min (echo_field_strength / 100) 1 * (2 / 10)

/-- `ParticleFactory.create_photon` composed with `set_photon_energy`
(`src/etm/particles.py`): energy content `E`, timing rate `1 + E / 13.6`. -/
def createPhoton {α : Type} [LinearOrderedField α] (energy_ev : α) :
    ParticlePattern α :=
  { core_timing_rate := 1 + energy_ev / (68 / 5)
    energy_content := energy_ev }

/-- `Identity` dataclass from `src/etm/core.py` (the fields the engine and the
verified properties use; `ancestry` is modelled in its string form). -/
structure Identity (α : Type) : Type where
  module_tag : String
  ancestry : String
  theta : α
  delta_theta : α
  tick_memory : ℕ := 0
  position : Option Pos := none
  return_status : ReturnStatus := ReturnStatus.pending
  unique_id : String
  mutation_history : List MutationRecord := []
  is_mutated : Bool := false
  coexisting_with : List String := []
  conflict_resolution_applied : Option ConflictResolutionMethod := none
  fundamental_particle : Option (ParticlePattern α) := none
  stability_score : α
  is_antiparticle : Bool := false
  antiparticle_of : Option String := none
  creation_tick : ℕ := 0
deriving DecidableEq, Repr

/-- `Recruiter` dataclass from `src/etm/core.py`. -/
structure Recruiter (α : Type) : Type where
  theta_recruiter : α
  ancestry_recruiter : String
  delta_theta : α
  returned_identities : List String := []
deriving DecidableEq, Repr

/-- `EchoField` dataclass from `src/etm/core.py`. -/
structure EchoField (α : Type) : Type where
  rho_local : α
  reinforcement_history : List α := []
deriving DecidableEq, Repr

/-- `Identity.update_phase`: `theta = (theta + delta_theta) % 1.0` and
`tick_memory += 1`. -/
def Identity.update_phase {α : Type} [LinearOrderedField α] [FloorRing α]
    (i : Identity α) : Identity α :=
  { i with theta := mod1 (i.theta + i.delta_theta)
           tick_memory := i.tick_memory + 1 }

/-- `Recruiter.update_phase`:
`theta_recruiter = (theta_recruiter + delta_theta) % 1.0`. -/
def Recruiter.update_phase {α : Type} [LinearOrderedField α] [FloorRing α]
    (r : Recruiter α) : Recruiter α :=
  { r with theta_recruiter := mod1 (r.theta_recruiter + r.delta_theta) }

/-- `Recruiter.add_returned_identity`: record the identity id once. -/
def Recruiter.add_returned_identity {α : Type} (r : Recruiter α)
    (uid : String) : Recruiter α :=
  if uid ∈ r.returned_identities then r
  else { r with returned_identities := r.returned_identities ++ [uid] }

/-- `EchoField.apply_decay`: `rho_local *= decay_factor`. -/
def EchoField.apply_decay {α : Type} [LinearOrderedField α]
    (f : EchoField α) (decay_factor : α) : EchoField α :=
  { f with rho_local := f.rho_local * decay_factor }

/-- `EchoField.add_reinforcement`: add to the value, append to the history. -/
def EchoField.add_reinforcement {α : Type} [LinearOrderedField α]
    (f : EchoField α) (amount : α) : EchoField α :=
  { rho_local := f.rho_local + amount
    reinforcement_history := f.reinforcement_history ++ [amount] }

/-- The slice of `ETMConfig` (`src/etm/config.py`) consumed by the verified
engine operations.  `sqrtFn` models the Python float operation `** 0.5`
used by the energy calculation. -/
structure Config (α : Type) : Type where
  connectivity : ℕ
  lattice_size : Pos
  phase_tolerance : α
  rho_min : α
  decay_factor : α
  inheritance_alpha : α
  echo_hybrid_local_weight : α
  echo_hybrid_neighbor_weight : α
  epsilon : α
  enable_detection_events : Bool
  detection_triggers_mutation : Bool
  default_conflict_resolution : ConflictResolutionMethod
  enable_calibrated_energy : Bool
  kinetic_scale_factor : α
  potential_coefficient : α
  stability_scale_factor : α
  coulomb_constant : α
  legacy_kinetic_scale : α
  legacy_potential_coeff : α
  legacy_stability_scale : α
  sqrtFn : α → α

/-- The ordered offset list built by `ETMEngine.get_neighbors`
(`src/etm/core.py`): axis-aligned directions, then the xy-plane
face diagonals, then the remaining edge diagonals. -/
def neighborOffsets (connectivity : ℕ) : List Pos :=
  (if 6 ≤ connectivity then
    [(-1, 0, 0), (1, 0, 0), (0, -1, 0), (0, 1, 0), (0, 0, -1), (0, 0, 1)]
   else []) ++
  (if 8 ≤ connectivity then
    [(-1, -1, 0), (-1, 1, 0), (1, -1, 0), (1, 1, 0)]
   else []) ++
  (if 12 ≤ connectivity then
    [(-1, 0, -1), (-1, 0, 1), (1, 0, -1), (1, 0, 1),
     (0, -1, -1), (0, -1, 1), (0, 1, -1), (0, 1, 1)]
   else [])

/-- Bounds check `0 <= n < lattice_shape` in each coordinate. -/
def inBounds (shape : Pos) (p : Pos) : Bool :=
  decide (0 ≤ p.1 ∧ p.1 < shape.1 ∧ 0 ≤ p.2.1 ∧ p.2.1 < shape.2.1 ∧
          0 ≤ p.2.2 ∧ p.2.2 < shape.2.2)

/-- `ETMEngine.get_neighbors`: take the first `connectivity` offsets of the
ordered list (`neighbors[:connectivity]`), shift by the position, and keep
only in-bounds results, preserving order. -/
def getNeighbors (shape : Pos) (connectivity : ℕ) (x y z : ℤ) : List Pos :=
  ((neighborOffsets connectivity).take connectivity).filterMap fun d =>
    let n : Pos := (x + d.1, y + d.2.1, z + d.2.2)
    if inBounds shape n then some n else none

/-- Truthiness of an optional string argument (`None` and `""` are falsy),
as tested by `apply_symbolic_mutation`. -/
def strTruthy : Option String → Bool
  | none => false
  | some s => !s.isEmpty

/-- `Identity.apply_symbolic_mutation` (identical in `src/etm/core.py` and
`versions/002/etm_framework.py`): mutate ancestry or tag according to the
mutation type, append a history record, and set `is_mutated`. -/
def Identity.apply_symbolic_mutation {α : Type} (i : Identity α)
    (mutation_type : String) (new_ancestry : Option String)
    (mutation_tag : Option String) : Identity α :=
  let ancestry1 :=
    if mutation_type = "ancestry_append" ∧ strTruthy mutation_tag then
      i.ancestry ++ mutation_tag.getD ""
    else if mutation_type = "ancestry_replace" ∧ strTruthy new_ancestry then
      new_ancestry.getD i.ancestry
    else i.ancestry
  let tag1 :=
    if mutation_type = "identity_suffix" ∧ strTruthy mutation_tag then
      i.module_tag ++ mutation_tag.getD ""
    else i.module_tag
  { i with ancestry := ancestry1
           module_tag := tag1
           mutation_history := i.mutation_history ++
             [{ tick := i.tick_memory, mutation_type := mutation_type,
                original := i.ancestry, new := ancestry1, tag := mutation_tag,
                validation_status := "Model_B_confirmed" }]
           is_mutated := true }

namespace Core

variable {α : Type} [LinearOrderedField α] [FloorRing α] [DecidableEq α]

/-- Detection event as recorded by `ETMEngine.process_detection_events` in
`src/etm/core.py` (annihilation events; the `mutation_results` dict is
modelled by its three optional entries). -/
structure DetectionEvent (α : Type) : Type where
  event_type : DetectionEventType
  position : Pos
  tick : ℕ
  trigger_id : Option String
  affected_ids : List String
  resolution_method : Option ConflictResolutionMethod
  energy_released : Option α
  photon_id : Option String
  photon_energy : Option α
deriving DecidableEq, Repr

/-- Entry appended to `self.conflict_resolutions` on annihilation. -/
structure AnnihilationRecord (α : Type) : Type where
  tick : ℕ
  position : Pos
  method : String
  energy_released : α
deriving DecidableEq, Repr

/-- The per-tick snapshot entries of `record_tick_results` that the verified
properties read. -/
structure TickData (α : Type) : Type where
  tick : ℕ
  energy_before : α
  energy_after : α
  energy_released_total : α
  photon_energy_total : α
deriving DecidableEq, Repr

/-- The mutable state of `ETMEngine` (`src/etm/core.py`).  The echo-field
dict (whose keys are exactly the lattice positions) and the recruiter and
coexistence dicts are modelled as functions on positions. -/
structure Engine (α : Type) : Type where
  config : Config α
  tick : ℕ
  identities : List (Identity α)
  recruiters : Pos → Option (Recruiter α)
  echo_fields : Pos → EchoField α
  detection_events : List (DetectionEvent α)
  coexistence_registry : Pos → List String
  conflict_resolutions : List (AnnihilationRecord α)
  current_tick_energy_before : α
  current_tick_energy_after : α
  results_history : List (TickData α)

/-- `self.center`: componentwise floor half of the lattice shape. -/
def Engine.center (e : Engine α) : Pos :=
  (e.config.lattice_size.1 / 2, e.config.lattice_size.2.1 / 2,
   e.config.lattice_size.2.2 / 2)

/-- The evaluation dict returned by `evaluate_return_eligibility`: either a
denial reason or the three match flags with the hybrid echo and phase
difference. -/
inductive Evaluation (α : Type) : Type
| reason (r : String)
| matches (phase_match ancestry_match echo_match : Bool)
    (rho_hybrid phase_diff : α)
deriving DecidableEq, Repr

/-- `ETMEngine.calculate_echo_match`: hybrid of the local echo value and the
mean neighbor echo value, compared against `rho_min`. -/
def calculateEchoMatch (e : Engine α) (p : Pos) : Bool × α :=
  let rho_local := (e.echo_fields p).rho_local
  let neighbors :=
    getNeighbors e.config.lattice_size e.config.connectivity p.1 p.2.1 p.2.2
  let rho_neigh :=
    if neighbors = [] then 0
    else (neighbors.map fun q => (e.echo_fields q).rho_local).sum /
      (neighbors.length : α)
  let rho_hybrid := e.config.echo_hybrid_local_weight * rho_local +
    e.config.echo_hybrid_neighbor_weight * rho_neigh
  (decide (e.config.rho_min ≤ rho_hybrid), rho_hybrid)

/-- `ETMEngine.evaluate_return_eligibility` (R1): denial when there is no
position or no recruiter there, otherwise the conjunction of the phase,
ancestry and echo matches. -/
def evaluateReturnEligibility (e : Engine α) (i : Identity α) :
    Bool × Evaluation α :=
  match i.position with
  | none => (false, Evaluation.reason "no_recruiter")
  | some p =>
    match e.recruiters p with
    | none => (false, Evaluation.reason "no_recruiter")
    | some r =>
      let phase_diff0 := mod1 |i.theta - r.theta_recruiter|
      let phase_diff := min phase_diff0 (1 - phase_diff0)
      let phase_match := decide (phase_diff ≤ e.config.phase_tolerance)
      let ancestry_match := decide (i.ancestry = r.ancestry_recruiter)
      let em := calculateEchoMatch e p
      (phase_match && ancestry_match && em.1,
       Evaluation.matches phase_match ancestry_match em.1 em.2 phase_diff)

/-- `ETMEngine.register_coexistence`, acting on the registry and the passed
identity (which the Python code mutates in place): record the id once,
set `coexisting_with` to the other registered ids, and set the status to
`COEXISTING` when others are present. -/
def registerCoexistence (reg : Pos → List String) (p : Pos)
    (i : Identity α) : (Pos → List String) × Identity α :=
  let cur := reg p
  let cur1 := if i.unique_id ∈ cur then cur else cur ++ [i.unique_id]
  let reg1 := Function.update reg p cur1
  let others := cur1.filter fun uid => decide (uid ≠ i.unique_id)
  let i1 := { i with
    coexisting_with := others
    return_status :=
      if 0 < others.length then ReturnStatus.coexisting else i.return_status }
  (reg1, i1)

/-- `ETMEngine.execute_identity_reformation` (`src/etm/core.py`): when a
recruiter holds the identity's position, lock phase and ancestry to the
recruiter, set status `COMPLETE`, record the return on the recruiter, and
reinforce the local echo field by `1.0`.  Returns the updated engine and
the updated identity (mutated in place in the Python code). -/
def executeIdentityReformation (e : Engine α) (i : Identity α) :
    Engine α × Identity α :=
  match i.position with
  | none => (e, i)
  | some p =>
    match e.recruiters p with
    | none => (e, i)
    | some r =>
      let i1 := { i with theta := r.theta_recruiter
                         ancestry := r.ancestry_recruiter
                         return_status := ReturnStatus.complete }
      let r1 := r.add_returned_identity i.unique_id
      let e1 := { e with
        recruiters := Function.update e.recruiters p (some r1)
        echo_fields := fun q =>
          if q = p then (e.echo_fields q).add_reinforcement 1
          else e.echo_fields q }
      (e1, i1)

/-- `ETMEngine.advance_phases`: advance every identity phase and every
recruiter phase. -/
def advancePhases (e : Engine α) : Engine α :=
  { e with identities := e.identities.map Identity.update_phase
           recruiters := fun p => (e.recruiters p).map Recruiter.update_phase }

/-- `Identity.calculate_particle_energy` (with its legacy branch): zero
without a position or particle pattern; otherwise the four-component sum.
The float operation `** 0.5` is `cfg.sqrtFn`, and the membership test
`self.position in echo_fields` is the lattice bounds check. -/
def calculateParticleEnergy (cfg : Config α) (nuclear_position : Pos)
    (echo_fields : Pos → EchoField α) (i : Identity α) : α :=
  match i.position, i.fundamental_particle with
  | some p, some fp =>
    let dist := cfg.sqrtFn
      (((p.1 - nuclear_position.1) ^ 2 + (p.2.1 - nuclear_position.2.1) ^ 2 +
        (p.2.2 - nuclear_position.2.2) ^ 2 : ℤ) : α)
    if cfg.enable_calibrated_energy then
      let kinetic := i.delta_theta * cfg.kinetic_scale_factor
      let potential := if inBounds cfg.lattice_size p then
          -(echo_fields p).rho_local * cfg.potential_coefficient else 0
      let radius := -cfg.coulomb_constant / max dist (1 / 10)
      let stability := fp.calculate_stability_score 100 * cfg.stability_scale_factor
      kinetic + potential + radius + stability
    else
      let kinetic := i.delta_theta * cfg.legacy_kinetic_scale
      let potential := if inBounds cfg.lattice_size p then
          -(echo_fields p).rho_local * cfg.legacy_potential_coeff else 0
      let radius := -(68 / 5 : α) / max dist (1 / 10)
      let stability := fp.calculate_stability_score 100 * cfg.legacy_stability_scale
      kinetic + potential + radius + stability
  | _, _ => 0

/-- All index pairs `i < j` of a list, in the scan order of the nested
`for i ... for j in range(i+1, ...)` loops. -/
def allPairs {β : Type} : List β → List (β × β)
  | [] => []
  | x :: xs => (xs.map fun y => (x, y)) ++ allPairs xs

/-- One step of building the insertion-ordered position map
(`position_map.setdefault(pos, []).append(identity)`). -/
def insertPosMap (m : List (Pos × List (Identity α))) (p : Pos)
    (i : Identity α) : List (Pos × List (Identity α)) :=
  match m with
  | [] => [(p, [i])]
  | (q, l) :: rest =>
    if q = p then (q, l ++ [i]) :: rest else (q, l) :: insertPosMap rest p i

/-- One identity of the position-map loop: identities without a position
are skipped. -/
def posMapStep (m : List (Pos × List (Identity α))) (i : Identity α) :
    List (Pos × List (Identity α)) :=
  match i.position with
  | none => m
  | some p => insertPosMap m p i

/-- The insertion-ordered map from positions to the identities located
there, built by `process_detection_events`. -/
def buildPositionMap (ids : List (Identity α)) :
    List (Pos × List (Identity α)) :=
  ids.foldl posMapStep []

/-- The photon identity created on annihilation: tag `PHOTON`, ancestry
`photon`, phase `0`, timing rate from the created photon pattern. -/
def mkPhotonIdentity (energy : α) (p : Pos) (uid : String) : Identity α :=
  { module_tag := "PHOTON"
    ancestry := "photon"
    theta := 0
    delta_theta := (createPhoton energy).core_timing_rate
    position := some p
    unique_id := uid
    fundamental_particle := some (createPhoton energy)
    stability_score := 1 }

/-- One pair check of the annihilation scan: when one of the two identities
is the antiparticle of the other, sum their energies, record the detection
event and resolution, and create the photon.  The accumulator carries the
engine, the count of fresh ids consumed, and the removal list. -/
def annihilatePair (fresh : ℕ → String) (pos : Pos)
    (acc : Engine α × ℕ × List (Identity α)) (ab : Identity α × Identity α) :
    Engine α × ℕ × List (Identity α) :=
  let e := acc.1
  let a := ab.1
  let b := ab.2
  if (a.is_antiparticle ∧ a.antiparticle_of = some b.unique_id) ∨
     (b.is_antiparticle ∧ b.antiparticle_of = some a.unique_id) then
    let energy_a := calculateParticleEnergy e.config e.center e.echo_fields a
    let energy_b := calculateParticleEnergy e.config e.center e.echo_fields b
    let total := energy_a + energy_b
    let photon := mkPhotonIdentity total pos (fresh acc.2.1)
    let ev : DetectionEvent α :=
      { event_type := DetectionEventType.particleCollision
        position := pos
        tick := e.tick
        trigger_id := some a.unique_id
        affected_ids := [b.unique_id]
        resolution_method := some ConflictResolutionMethod.exclusion
        energy_released := some total
        photon_id := some photon.unique_id
        photon_energy := some (createPhoton total).energy_content }
    let res : AnnihilationRecord α :=
      { tick := e.tick, position := pos, method := "annihilation",
        energy_released := total }
    ({ e with identities := e.identities ++ [photon]
              detection_events := e.detection_events ++ [ev]
              conflict_resolutions := e.conflict_resolutions ++ [res] },
     acc.2.1 + 1, acc.2.2 ++ [a, b])
  else acc

/-- `ETMEngine.process_detection_events` (`src/etm/core.py`): group the
identities by position, scan each group of at least two pairwise for
antiparticle annihilation, then remove the annihilated identities.
`fresh` supplies the generated photon ids (`uuid.uuid4` draws). -/
def processDetectionEvents (fresh : ℕ → String) (e : Engine α) : Engine α :=
  let pmap := buildPositionMap e.identities
  let acc := pmap.foldl (fun acc pl =>
      if pl.2.length < 2 then acc
      else (allPairs pl.2).foldl (annihilatePair fresh pl.1) acc)
    (e, 0, ([] : List (Identity α)))
  { acc.1 with
    identities := acc.2.2.foldl (fun l x => l.erase x) acc.1.identities }

/-- `ETMEngine.record_tick_results`: append the per-tick snapshot (summing
`energy_released` and `photon_energy` over the detection events with
default `0.0`) and clear the event lists. -/
def recordTickResults (e : Engine α) : Engine α :=
  let tick_data : TickData α :=
    { tick := e.tick
      energy_before := e.current_tick_energy_before
      energy_after := e.current_tick_energy_after
      energy_released_total :=
        e.detection_events.foldl (fun acc ev => acc + ev.energy_released.getD 0) 0
      photon_energy_total :=
        e.detection_events.foldl (fun acc ev => acc + ev.photon_energy.getD 0) 0 }
  { e with results_history := e.results_history ++ [tick_data]
           detection_events := []
           conflict_resolutions := [] }

end Core

namespace V002

variable {α : Type} [LinearOrderedField α] [FloorRing α] [DecidableEq α]

/-- Detection event of `versions/002/etm_framework.py`; its
`affected_identities` hold the co-located identities at creation time. -/
structure Event (α : Type) : Type where
  event_type : DetectionEventType
  position : Pos
  tick : ℕ
  affected_identities : List (Identity α)
  resolution_method : Option ConflictResolutionMethod
deriving DecidableEq, Repr

/-- The slice of the `versions/002` engine state that the detection and
conflict-resolution subsystem reads and writes.  The coexistence registry
is an insertion-ordered dict, modelled as an association list. -/
structure State (α : Type) : Type where
  config : Config α
  tick : ℕ
  identities : List (Identity α)
  coexistence_registry : List (Pos × List String)
  detection_events : List (Event α)

/-- `ETMEngine.get_identity_by_id`: first identity with the id. -/
def getIdentityById (ids : List (Identity α)) (uid : String) :
    Option (Identity α) :=
  ids.find? fun i => decide (i.unique_id = uid)

/-- Dict lookup in the coexistence registry. -/
def lookupRegistry (reg : List (Pos × List String)) (p : Pos) :
    Option (List String) :=
  (reg.find? fun q => decide (q.1 = p)).map Prod.snd

/-- `ETMEngine.get_coexisting_identities`: resolve the registered ids at a
position, keeping the ones that exist. -/
def getCoexisting (s : State α) (p : Pos) : List (Identity α) :=
  match lookupRegistry s.coexistence_registry p with
  | none => []
  | some ids => ids.filterMap (getIdentityById s.identities)

/-- The inner scan of `check_detection_required`: walk the co-located
identities, skipping resolved ones, and report whether some unresolved
identity is identical (same ancestry, `|Δθ| < ε`) to an earlier unresolved
one (accumulated in the first argument). -/
def hasIdenticalPair (ε : α) :
    List (Identity α) → List (Identity α) → Bool
  | _, [] => false
  | acc, i :: rest =>
    if i.conflict_resolution_applied = none then
      if acc.any (fun o =>
          decide (i.ancestry = o.ancestry ∧ |i.theta - o.theta| < ε)) then
        true
      else hasIdenticalPair ε (acc ++ [i]) rest
    else hasIdenticalPair ε acc rest

/-- `ETMEngine.check_detection_required`: more than one co-located identity
and an unresolved identical pair among them. -/
def checkDetectionRequired (s : State α) (p : Pos) : Bool :=
  let coexisting := getCoexisting s p
  if 1 < coexisting.length then hasIdenticalPair s.config.epsilon [] coexisting
  else false

/-- The per-method mutation applied to the identity with 1-based index `k`
by `resolve_detection_conflict`. -/
def mutateOne (method : ConflictResolutionMethod) (k : ℕ) (i : Identity α) :
    Identity α :=
  match method with
  | ConflictResolutionMethod.symbolicMutation =>
    i.apply_symbolic_mutation "ancestry_append" none (some ("_" ++ toString k))
  | ConflictResolutionMethod.identityRename =>
    i.apply_symbolic_mutation "identity_suffix" none (some ("*" ++ toString k))
  | ConflictResolutionMethod.phaseSeparation =>
    { i with theta := mod1 (i.theta + (k : α) * (2 / 100)) }
  | _ => i

/-- The `enumerate(affected[1:], 1)` loop of `resolve_detection_conflict`. -/
def mutateTail (method : ConflictResolutionMethod) (k : ℕ) :
    List (Identity α) → List (Identity α)
  | [] => []
  | x :: xs => mutateOne method k x :: mutateTail method (k + 1) xs

/-- `ETMEngine.resolve_detection_conflict`, as it acts on the affected
identities: with fewer than two nothing happens; otherwise every affected
identity except the first is mutated with its 1-based index, and all
affected identities are marked with the method applied. -/
def resolveAffected (method : ConflictResolutionMethod)
    (affected : List (Identity α)) : List (Identity α) :=
  if affected.length < 2 then affected
  else
    let mutated := match affected with
      | [] => []
      | h :: t => h :: mutateTail method 1 t
    mutated.map fun i => { i with conflict_resolution_applied := some method }

/-- Write the resolved affected identities back into the engine identity
list (the Python code mutates the aliased objects in place). -/
def resolveEvent (st : State α) (ev : Event α) : State α :=
  let affected := ev.affected_identities
  if affected.length < 2 then st
  else
    let resolved := resolveAffected st.config.default_conflict_resolution affected
    let pairs := affected.zip resolved
    { st with identities := st.identities.map fun i =>
        match pairs.find? (fun q => decide (q.1.unique_id = i.unique_id)) with
        | some q => q.2
        | none => i }

/-- The measurement-probe event raised by `create_detection_event` at a
position: its affected identities are the co-located identities. -/
def mkProbeEvent (st : State α) (p : Pos) : Event α :=
  { event_type := DetectionEventType.measurementProbe
    position := p
    tick := st.tick
    affected_identities := getCoexisting st p
    resolution_method := none }

/-- One iteration of the `versions/002` detection loop: raise one event when
detection is required at the position and, when configured, resolve it. -/
def detectionStep (st : State α) (p : Pos) : State α :=
  if checkDetectionRequired st p then
    let st1 := { st with
      detection_events := st.detection_events ++ [mkProbeEvent st p] }
    if st1.config.detection_triggers_mutation then
      resolveEvent st1 (mkProbeEvent st p)
    else st1
  else st

/-- `ETMEngine.process_detection_events` (`versions/002`): for each
registered position (keys snapshot), raise one measurement-probe event when
detection is required and, when configured, resolve it. -/
def processDetectionEvents (s : State α) : State α :=
  (s.coexistence_registry.map Prod.fst).foldl detectionStep s

end V002

namespace Decay

variable {α : Type} [LinearOrderedField α]

/-- `CompositeBinding.calculate_decay_probability` (`src/etm/particles.py`):
`0` without a configured lifetime or at nonpositive age, otherwise
`1 - exp(-(age / L))`.  `expFn` models `np.exp`. -/
def calculateDecayProbability (expFn : α → α)
    (decay_lifetime_ticks : Option ℕ) (current_tick creation_tick : ℤ) : α :=
  match decay_lifetime_ticks with
  | none => 0
  | some L =>
    let age := current_tick - creation_tick
    if age ≤ 0 then 0
    else 1 - expFn (-(1 / (L : α)) * (age : α))

/-- The probability evaluated by `ETMEngine.process_beta_decay`
(`versions/005/etm_framework.py`, the call
`neutron.calculate_beta_decay_probability(self.tick, 0)`): the decay law
with the creation tick hard-coded to `0`. -/
def processBetaDecayProbability (expFn : α → α) (decay_lifetime_ticks : Option ℕ)
    (tick : ℤ) : α :=
  calculateDecayProbability expFn decay_lifetime_ticks tick 0

end Decay

namespace Ex

/-- A concrete configuration (rational-valued) used as test input. -/
def cfg : Config ℚ :=
  { connectivity := 8
    lattice_size := (30, 30, 30)
    phase_tolerance := 11 / 100
    rho_min := 0
    decay_factor := 95 / 100
    inheritance_alpha := 1 / 10
    echo_hybrid_local_weight := 6 / 10
    echo_hybrid_neighbor_weight := 4 / 10
    epsilon := 1 / 100
    enable_detection_events := true
    detection_triggers_mutation := true
    default_conflict_resolution := ConflictResolutionMethod.symbolicMutation
    enable_calibrated_energy := true
    kinetic_scale_factor := 1000
    potential_coefficient := 3723 / 1000000
    stability_scale_factor := 263 / 100
    coulomb_constant := 68 / 5
    legacy_kinetic_scale := 1360
    legacy_potential_coeff := 2 / 25
    legacy_stability_scale := 5
    sqrtFn := fun _ => 0 }

/-- A concrete particle pattern used as test input. -/
def pat1 : ParticlePattern ℚ :=
  { core_timing_rate := 1, energy_content := 0 }

/-- Test identity at position `(1,1,1)`. -/
def iA : Identity ℚ :=
  { module_tag := "T", ancestry := "ABC", theta := 0, delta_theta := 0
    position := some (1, 1, 1), unique_id := "A"
    fundamental_particle := some pat1, stability_score := 1 }

/-- Test identity at position `(1,1,1)`, antiparticle of `iA`. -/
def iB : Identity ℚ :=
  { module_tag := "T", ancestry := "ABC", theta := 0, delta_theta := 0
    position := some (1, 1, 1), unique_id := "B"
    fundamental_particle := some pat1, stability_score := 1
    is_antiparticle := true, antiparticle_of := some "A" }

/-- Test identity at a position with no recruiter. -/
def iC : Identity ℚ :=
  { module_tag := "T", ancestry := "ABC", theta := 0, delta_theta := 0
    position := some (2, 2, 2), unique_id := "C"
    stability_score := 1 }

/-- Test recruiter at position `(1,1,1)`, matching `iA`. -/
def rec1 : Recruiter ℚ :=
  { theta_recruiter := 0, ancestry_recruiter := "ABC", delta_theta := 1 }

/-- A concrete engine state: `iA` and `iB` co-located at `(1,1,1)` (both
registered there), a matching recruiter, all echo fields zero. -/
def engA : Core.Engine ℚ :=
  { config := cfg
    tick := 3
    identities := [iA, iB]
    recruiters := fun p => if p = (1, 1, 1) then some rec1 else none
    echo_fields := fun _ => { rho_local := 0 }
    detection_events := []
    coexistence_registry := fun p => if p = (1, 1, 1) then ["A", "B"] else []
    conflict_resolutions := []
    current_tick_energy_before := 0
    current_tick_energy_after := 0
    results_history := [] }

/-- A concrete fresh-id supply for photon creation. -/
def freshP : ℕ → String := fun _ => "P"

/-- A concrete `versions/002` state: the two identical unresolved identities
`A` and `B` registered at `(1,1,1)`. -/
def stB : V002.State ℚ :=
  { config := cfg
    tick := 3
    identities := [iA, iB]
    coexistence_registry := [((1, 1, 1), ["A", "B"])]
    detection_events := [] }

end Ex

/-! ## Theorems -/

section Theorems

variable {α : Type} [LinearOrderedField α] [FloorRing α] [DecidableEq α]

theorem mod1_nonneg (x : α) : 0 ≤ mod1 x :=
  Int.fract_nonneg x

theorem mod1_lt_one (x : α) : mod1 x < 1 :=
  Int.fract_lt_one x

/-- C2: after `update_phase` the phase satisfies `0 ≤ θ < 1`, with the
wrap-around example `θ = 0.95, Δθ = 0.1 → θ = 0.05`; the same invariant
holds for recruiter phase advancement, for all identities after
`advance_phases`, for identity reformation (given the recruiter data-model
invariant `θ_r ∈ [0,1)`), for the phase-separation mutation, and for the
photon identities created on annihilation (phase `0`). -/
theorem claim_C2_phase_wraparound_invariant
    (i : Identity α) (r : Recruiter α) (e : Core.Engine α) (j : Identity α)
    (hj : 0 ≤ j.theta ∧ j.theta < 1)
    (hrec : ∀ q rq, e.recruiters q = some rq →
      0 ≤ rq.theta_recruiter ∧ rq.theta_recruiter < 1) :
    (0 ≤ i.update_phase.theta ∧ i.update_phase.theta < 1) ∧
    (Identity.update_phase
      { i with theta := (0.95 : α), delta_theta := (0.1 : α) }).theta =
      (0.05 : α) ∧
    (0 ≤ r.update_phase.theta_recruiter ∧
      r.update_phase.theta_recruiter < 1) ∧
    (∀ j1 ∈ (Core.advancePhases e).identities, 0 ≤ j1.theta ∧ j1.theta < 1) ∧
    (0 ≤ (Core.executeIdentityReformation e j).2.theta ∧
      (Core.executeIdentityReformation e j).2.theta < 1) ∧
    (∀ (k : ℕ) (x : Identity α),
      0 ≤ (V002.mutateOne ConflictResolutionMethod.phaseSeparation k x).theta ∧
      (V002.mutateOne ConflictResolutionMethod.phaseSeparation k x).theta < 1) ∧
    (∀ (en : α) (q : Pos) (uid : String),
      (Core.mkPhotonIdentity en q uid).theta = 0) := by
  refine ⟨⟨mod1_nonneg _, mod1_lt_one _⟩, ?_, ⟨mod1_nonneg _, mod1_lt_one _⟩,
    ?_, ?_, ?_, ?_⟩
  · show mod1 ((0.95 : α) + (0.1 : α)) = (0.05 : α)
    have h1 : ((0.95 : α) + (0.1 : α)) = 21 / 20 := by norm_num
    have h2 : ⌊(21 / 20 : α)⌋ = 1 := by
      rw [show (1 : ℤ) = ((1 : ℤ)) from rfl, Int.floor_eq_iff]
      constructor <;> norm_num
    rw [mod1, h1, Int.fract, h2]
    norm_num
  · intro j1 hj1
    simp only [Core.advancePhases, List.mem_map] at hj1
    obtain ⟨j0, _, rfl⟩ := hj1
    exact ⟨mod1_nonneg _, mod1_lt_one _⟩
  · unfold Core.executeIdentityReformation
    cases hp : j.position with
    | none => simpa using hj
    | some p =>
      cases hr : e.recruiters p with
      | none => simpa [hr] using hj
      | some rp => simpa [hr] using hrec p rp hr
  · intro k x
    exact ⟨mod1_nonneg _, mod1_lt_one _⟩
  · intro en q uid
    rfl

/-- Witness for C2 at concrete inputs. -/
theorem claim_C2_phase_wraparound_invariant_witness :
    (0 ≤ (Ex.iA.update_phase).theta ∧ (Ex.iA.update_phase).theta < 1) ∧
    (Identity.update_phase
      { Ex.iA with theta := (0.95 : ℚ), delta_theta := (0.1 : ℚ) }).theta =
      (0.05 : ℚ) ∧
    (0 ≤ (Ex.rec1.update_phase).theta_recruiter ∧
      (Ex.rec1.update_phase).theta_recruiter < 1) ∧
    (∀ j1 ∈ (Core.advancePhases Ex.engA).identities,
      0 ≤ j1.theta ∧ j1.theta < 1) ∧
    (0 ≤ (Core.executeIdentityReformation Ex.engA Ex.iA).2.theta ∧
      (Core.executeIdentityReformation Ex.engA Ex.iA).2.theta < 1) ∧
    (∀ (k : ℕ) (x : Identity ℚ),
      0 ≤ (V002.mutateOne ConflictResolutionMethod.phaseSeparation k x).theta ∧
      (V002.mutateOne ConflictResolutionMethod.phaseSeparation k x).theta < 1) ∧
    (∀ (en : ℚ) (q : Pos) (uid : String),
      (Core.mkPhotonIdentity en q uid).theta = 0) :=
  claim_C2_phase_wraparound_invariant Ex.iA Ex.rec1 Ex.engA Ex.iA
    (by constructor <;> norm_num [Ex.iA])
    (by
      intro q rq hq
      simp only [Ex.engA] at hq
      by_cases h : q = ((1 : ℤ), (1 : ℤ), (1 : ℤ))
      · rw [if_pos h] at hq
        cases hq
        constructor <;> norm_num [Ex.rec1]
      · rw [if_neg h] at hq
        cases hq)

theorem filterMap_guard_eq_filter {β γ : Type} [DecidableEq γ]
    (P : γ → Bool) (f : β → γ) (l : List β) :
    (l.filterMap fun d => if P (f d) then some (f d) else none) =
      (l.map f).filter P := by
  induction l with
  | nil => rfl
  | cons x xs ih =>
    simp only [List.filterMap_cons, List.map_cons, List.filter_cons]
    by_cases h : P (f x)
    · rw [if_pos h, if_pos h, ih]
    · rw [if_neg h, if_neg h, ih]

theorem getNeighbors_eq_filter (shape : Pos) (c : ℕ) (x y z : ℤ) :
    getNeighbors shape c x y z =
      (((neighborOffsets c).take c).map fun d =>
        ((x + d.1, y + d.2.1, z + d.2.2) : Pos)).filter (inBounds shape) := by
  unfold getNeighbors
  exact filterMap_guard_eq_filter (inBounds shape) _ _

/-- C9: `get_neighbors` returns the shifts of the fixed ordered offset list
(axis-aligned, then face-diagonal, then edge-diagonal) with out-of-bounds
positions filtered out, preserving that exact order (it is a sublist of the
shifted offset list); every returned position is in bounds; and away from
the lattice boundary the number of neighbors equals the connectivity for
connectivity 6, 8 and 12. -/
theorem claim_C9_get_neighbors (shape : Pos) (c : ℕ) (x y z : ℤ)
    (hc : c = 6 ∨ c = 8 ∨ c = 12) :
    (∀ q ∈ getNeighbors shape c x y z, inBounds shape q = true) ∧
    (getNeighbors shape c x y z).Sublist
      (((neighborOffsets c).take c).map fun d =>
        ((x + d.1, y + d.2.1, z + d.2.2) : Pos)) ∧
    (1 ≤ x → x + 1 < shape.1 → 1 ≤ y → y + 1 < shape.2.1 →
     1 ≤ z → z + 1 < shape.2.2 →
      (getNeighbors shape c x y z).length = c) := by
  rw [getNeighbors_eq_filter]
  refine ⟨?_, List.filter_sublist _, ?_⟩
  · intro q hq
    exact (List.mem_filter.mp hq).2
  · intro hx1 hx2 hy1 hy2 hz1 hz2
    have hall : ∀ q ∈ (((neighborOffsets c).take c).map fun d =>
        ((x + d.1, y + d.2.1, z + d.2.2) : Pos)), inBounds shape q = true := by
      intro q hq
      obtain ⟨d, hd, rfl⟩ := List.mem_map.mp hq
      have hd1 : d ∈ neighborOffsets c := List.mem_of_mem_take hd
      have hbox : (-1 ≤ d.1 ∧ d.1 ≤ 1) ∧ (-1 ≤ d.2.1 ∧ d.2.1 ≤ 1) ∧
          (-1 ≤ d.2.2 ∧ d.2.2 ≤ 1) := by
        rcases hc with rfl | rfl | rfl <;> fin_cases hd1 <;> decide
      simp only [inBounds, decide_eq_true_eq]
      omega
    rw [List.filter_eq_self.mpr hall, List.length_map, List.length_take]
    rcases hc with rfl | rfl | rfl <;> rfl

/-- Witness for C9 at a concrete interior position. -/
theorem claim_C9_get_neighbors_witness :
    ((6 : ℕ) = 6 ∨ (6 : ℕ) = 8 ∨ (6 : ℕ) = 12) ∧
    ((∀ q ∈ getNeighbors (30, 30, 30) 6 15 15 15, inBounds (30, 30, 30) q = true) ∧
    (getNeighbors (30, 30, 30) 6 15 15 15).Sublist
      (((neighborOffsets 6).take 6).map fun d =>
        ((15 + d.1, 15 + d.2.1, 15 + d.2.2) : Pos)) ∧
    (1 ≤ (15 : ℤ) → (15 : ℤ) + 1 < 30 → 1 ≤ (15 : ℤ) → (15 : ℤ) + 1 < 30 →
     1 ≤ (15 : ℤ) → (15 : ℤ) + 1 < 30 →
      (getNeighbors (30, 30, 30) 6 15 15 15).length = 6)) :=
  ⟨Or.inl rfl, claim_C9_get_neighbors (30, 30, 30) 6 15 15 15 (Or.inl rfl)⟩

/-- C10: `register_coexistence` is idempotent — a second call with the same
position and the once-registered identity changes nothing — and it
preserves the absence of duplicate ids in every registry list. -/
theorem claim_C10_register_coexistence_idempotent
    (reg : Pos → List String) (p : Pos) (i : Identity α) :
    Core.registerCoexistence (Core.registerCoexistence reg p i).1 p
      (Core.registerCoexistence reg p i).2 =
      Core.registerCoexistence reg p i ∧
    (∀ q, (reg q).Nodup → ((Core.registerCoexistence reg p i).1 q).Nodup) := by
  constructor
  · unfold Core.registerCoexistence
    simp only
    have hmem : i.unique_id ∈
        (if i.unique_id ∈ reg p then reg p else reg p ++ [i.unique_id]) := by
      by_cases h : i.unique_id ∈ reg p
      · rw [if_pos h]; exact h
      · rw [if_neg h]; exact List.mem_append_right _ (List.mem_singleton.mpr rfl)
    rw [Function.update_same, if_pos hmem, Function.update_idem]
    refine Prod.ext rfl ?_
    simp only
    congr 1
    by_cases h0 : 0 < (List.filter (fun uid => decide (uid ≠ i.unique_id))
        (if i.unique_id ∈ reg p then reg p else reg p ++ [i.unique_id])).length
    · rw [if_pos h0, if_pos h0]
    · rw [if_neg h0, if_neg h0]
  · intro q hq
    unfold Core.registerCoexistence
    simp only
    by_cases hqp : q = p
    · subst hqp
      rw [Function.update_same]
      by_cases h : i.unique_id ∈ reg q
      · rw [if_pos h]; exact hq
      · rw [if_neg h]
        exact List.Nodup.append hq (List.nodup_singleton _)
          (by simpa using h)
    · rw [Function.update_noteq hqp]
      exact hq

/-- Witness for C10 at a concrete registry and identity. -/
theorem claim_C10_register_coexistence_idempotent_witness :
    Core.registerCoexistence
      (Core.registerCoexistence Ex.engA.coexistence_registry (1, 1, 1) Ex.iA).1
      (1, 1, 1)
      (Core.registerCoexistence Ex.engA.coexistence_registry (1, 1, 1) Ex.iA).2 =
      Core.registerCoexistence Ex.engA.coexistence_registry (1, 1, 1) Ex.iA ∧
    (∀ q, (Ex.engA.coexistence_registry q).Nodup →
      ((Core.registerCoexistence Ex.engA.coexistence_registry (1, 1, 1) Ex.iA).1
        q).Nodup) :=
  claim_C10_register_coexistence_idempotent Ex.engA.coexistence_registry
    (1, 1, 1) Ex.iA

theorem calculateEchoMatch_fst (e : Core.Engine α) (p : Pos) :
    (Core.calculateEchoMatch e p).1 =
      decide (e.config.rho_min ≤ (Core.calculateEchoMatch e p).2) := rfl

/-- C1: with a recruiter at the identity's position (and phases in the
data-model range `[0,1)`), `return_allowed` is true iff the circular phase
distance is within tolerance, the ancestries match, and the hybrid echo
value reaches `rho_min`; falsifying any one of the three predicates forces
`return_allowed = false`.  Without a position or recruiter the evaluation
is the denial with reason `no_recruiter`. -/
theorem claim_C1_return_eligibility (e : Core.Engine α) (i : Identity α) :
    (∀ p r, i.position = some p → e.recruiters p = some r →
      0 ≤ i.theta → i.theta < 1 →
      0 ≤ r.theta_recruiter → r.theta_recruiter < 1 →
      (((Core.evaluateReturnEligibility e i).1 = true ↔
        (min |i.theta - r.theta_recruiter| (1 - |i.theta - r.theta_recruiter|) ≤
            e.config.phase_tolerance ∧
          i.ancestry = r.ancestry_recruiter ∧
          e.config.rho_min ≤ (Core.calculateEchoMatch e p).2)) ∧
       (¬ min |i.theta - r.theta_recruiter| (1 - |i.theta - r.theta_recruiter|) ≤
            e.config.phase_tolerance →
          (Core.evaluateReturnEligibility e i).1 = false) ∧
       (i.ancestry ≠ r.ancestry_recruiter →
          (Core.evaluateReturnEligibility e i).1 = false) ∧
       (¬ e.config.rho_min ≤ (Core.calculateEchoMatch e p).2 →
          (Core.evaluateReturnEligibility e i).1 = false))) ∧
    ((i.position = none ∨ ∀ p, i.position = some p → e.recruiters p = none) →
      Core.evaluateReturnEligibility e i =
        (false, Core.Evaluation.reason "no_recruiter")) := by
  constructor
  · intro p r hp hr hθi1 hθi2 hθr1 hθr2
    have habs : |i.theta - r.theta_recruiter| < 1 := by
      rw [abs_sub_lt_iff]
      constructor <;> linarith
    have hfract : mod1 |i.theta - r.theta_recruiter| =
        |i.theta - r.theta_recruiter| :=
      Int.fract_eq_self.mpr ⟨abs_nonneg _, habs⟩
    have h1 : (Core.evaluateReturnEligibility e i).1 =
        (decide (min |i.theta - r.theta_recruiter|
            (1 - |i.theta - r.theta_recruiter|) ≤ e.config.phase_tolerance) &&
          decide (i.ancestry = r.ancestry_recruiter) &&
          (Core.calculateEchoMatch e p).1) := by
      unfold Core.evaluateReturnEligibility
      rw [hp]
      simp only [hr, hfract]
    have hiff : (Core.evaluateReturnEligibility e i).1 = true ↔
        (min |i.theta - r.theta_recruiter| (1 - |i.theta - r.theta_recruiter|) ≤
            e.config.phase_tolerance ∧
          i.ancestry = r.ancestry_recruiter ∧
          e.config.rho_min ≤ (Core.calculateEchoMatch e p).2) := by
      rw [h1, calculateEchoMatch_fst]
      simp [Bool.and_eq_true, decide_eq_true_eq, and_assoc]
    refine ⟨hiff, ?_, ?_, ?_⟩ <;> intro hnot <;>
      · rw [Bool.eq_false_iff]
        intro htrue
        exact hnot (by
          have := hiff.mp htrue
          tauto)
  · intro hno
    rcases hno with hnone | hno
    · unfold Core.evaluateReturnEligibility
      rw [hnone]
    · cases hp : i.position with
      | none =>
        unfold Core.evaluateReturnEligibility
        rw [hp]
      | some p =>
        unfold Core.evaluateReturnEligibility
        rw [hp]
        simp only [hno p hp]

/-- Witness for C1: `iA` with the matching recruiter at `(1,1,1)` passes all
three predicates, and `iC` (no recruiter at its position) is denied with
reason `no_recruiter`. -/
theorem claim_C1_return_eligibility_witness :
    (((Core.evaluateReturnEligibility Ex.engA Ex.iA).1 = true ↔
      (min |Ex.iA.theta - Ex.rec1.theta_recruiter|
          (1 - |Ex.iA.theta - Ex.rec1.theta_recruiter|) ≤
          Ex.engA.config.phase_tolerance ∧
        Ex.iA.ancestry = Ex.rec1.ancestry_recruiter ∧
        Ex.engA.config.rho_min ≤
          (Core.calculateEchoMatch Ex.engA (1, 1, 1)).2)) ∧
     Core.evaluateReturnEligibility Ex.engA Ex.iC =
       (false, Core.Evaluation.reason "no_recruiter")) ∧
    (Core.evaluateReturnEligibility Ex.engA Ex.iA).1 = true := by
  have hiff := ((claim_C1_return_eligibility Ex.engA Ex.iA).1 (1, 1, 1) Ex.rec1
    rfl rfl (by norm_num [Ex.iA]) (by norm_num [Ex.iA])
    (by norm_num [Ex.rec1]) (by norm_num [Ex.rec1])).1
  refine ⟨⟨hiff, ?_⟩, ?_⟩
  · exact (claim_C1_return_eligibility Ex.engA Ex.iC).2
      (Or.inr (by intro p hp; cases hp; rfl))
  · refine hiff.mpr ⟨?_, rfl, ?_⟩
    · show min |Ex.iA.theta - Ex.rec1.theta_recruiter|
        (1 - |Ex.iA.theta - Ex.rec1.theta_recruiter|) ≤
          Ex.engA.config.phase_tolerance
      norm_num [Ex.iA, Ex.rec1, Ex.engA, Ex.cfg]
    · show Ex.engA.config.rho_min ≤ (Core.calculateEchoMatch Ex.engA (1, 1, 1)).2
      norm_num [Ex.engA, Ex.cfg, Core.calculateEchoMatch, getNeighbors,
        neighborOffsets, inBounds]

/-- C6 (amended): identity reformation in `src/etm/core.py` locks the
identity's phase and ancestry to the recruiter's, records the identity on
the recruiter, reinforces the local echo field by the fixed amount `1.0`,
and sets the status to `COMPLETE` unconditionally (the coexistence-aware
status exists only in the legacy monolith); nothing else changes. -/
theorem claim_C6_identity_reformation_amended
    (e : Core.Engine α) (i : Identity α) (p : Pos) (r : Recruiter α)
    (hp : i.position = some p) (hr : e.recruiters p = some r) :
    (Core.executeIdentityReformation e i).2 =
      { i with theta := r.theta_recruiter
               ancestry := r.ancestry_recruiter
               return_status := ReturnStatus.complete } ∧
    (Core.executeIdentityReformation e i).1.echo_fields p =
      (e.echo_fields p).add_reinforcement 1 ∧
    (∀ q, q ≠ p →
      (Core.executeIdentityReformation e i).1.echo_fields q = e.echo_fields q) ∧
    (Core.executeIdentityReformation e i).1.recruiters p =
      some (r.add_returned_identity i.unique_id) ∧
    i.unique_id ∈ (r.add_returned_identity i.unique_id).returned_identities ∧
    (∀ q, q ≠ p →
      (Core.executeIdentityReformation e i).1.recruiters q = e.recruiters q) ∧
    (Core.executeIdentityReformation e i).1.identities = e.identities ∧
    (Core.executeIdentityReformation e i).1.coexistence_registry =
      e.coexistence_registry ∧
    (Core.executeIdentityReformation e i).1.detection_events =
      e.detection_events := by
  have hred : Core.executeIdentityReformation e i =
      ({ e with
          recruiters := Function.update e.recruiters p
            (some (r.add_returned_identity i.unique_id))
          echo_fields := fun q =>
            if q = p then (e.echo_fields q).add_reinforcement 1
            else e.echo_fields q },
        { i with theta := r.theta_recruiter
                 ancestry := r.ancestry_recruiter
                 return_status := ReturnStatus.complete }) := by
    unfold Core.executeIdentityReformation
    rw [hp]
    simp only [hr]
  rw [hred]
  refine ⟨rfl, by simp, ?_, ?_, ?_, ?_, rfl, rfl, rfl⟩
  · intro q hq
    simp [if_neg hq]
  · simp [Function.update_same]
  · unfold Recruiter.add_returned_identity
    by_cases h : i.unique_id ∈ r.returned_identities
    · rw [if_pos h]; exact h
    · rw [if_neg h]
      exact List.mem_append_right _ (List.mem_singleton.mpr rfl)
  · intro q hq
    simp [Function.update_noteq hq]

/-- Witness for C6 (amended) at the concrete engine. -/
theorem claim_C6_identity_reformation_amended_witness :
    (Core.executeIdentityReformation Ex.engA Ex.iA).2 =
      { Ex.iA with theta := Ex.rec1.theta_recruiter
                   ancestry := Ex.rec1.ancestry_recruiter
                   return_status := ReturnStatus.complete } ∧
    (Core.executeIdentityReformation Ex.engA Ex.iA).1.echo_fields (1, 1, 1) =
      (Ex.engA.echo_fields (1, 1, 1)).add_reinforcement 1 :=
  have h := claim_C6_identity_reformation_amended Ex.engA Ex.iA (1, 1, 1)
    Ex.rec1 rfl rfl
  ⟨h.1, h.2.1⟩

/-- C6 counterexample to the claim as stated: `iA` has its return allowed,
a recruiter holds its position, two identities share that position, yet
reformation sets the status to `COMPLETE`, not `COEXISTING`. -/
theorem claim_C6_identity_reformation_counterexample :
    (Core.evaluateReturnEligibility Ex.engA Ex.iA).1 = true ∧
    Ex.engA.recruiters (1, 1, 1) = some Ex.rec1 ∧
    2 ≤ (Ex.engA.identities.filter fun j =>
      decide (j.position = some (1, 1, 1))).length ∧
    (Core.executeIdentityReformation Ex.engA Ex.iA).2.return_status =
      ReturnStatus.complete ∧
    (Core.executeIdentityReformation Ex.engA Ex.iA).2.return_status ≠
      ReturnStatus.coexisting := by
  refine ⟨?_, rfl, by rfl, rfl, ?_⟩
  case refine_2 =>
    have h4 : (Core.executeIdentityReformation Ex.engA Ex.iA).2.return_status =
        ReturnStatus.complete := rfl
    rw [h4]
    simp
  show (Core.evaluateReturnEligibility Ex.engA Ex.iA).1 = true
  simp only [Core.evaluateReturnEligibility, Ex.iA, Ex.engA, Ex.rec1, Ex.cfg,
    Core.calculateEchoMatch]
  norm_num [mod1, Int.fract, getNeighbors, neighborOffsets, inBounds,
    List.filterMap]

theorem annihilatePair_registry (fresh : ℕ → String) (pos : Pos)
    (acc : Core.Engine α × ℕ × List (Identity α)) (ab : Identity α × Identity α) :
    (Core.annihilatePair fresh pos acc ab).1.coexistence_registry =
      acc.1.coexistence_registry := by
  unfold Core.annihilatePair
  dsimp only
  split
  · rfl
  · rfl

theorem annihilatePair_foldl_registry (fresh : ℕ → String) (pos : Pos)
    (l : List (Identity α × Identity α))
    (acc : Core.Engine α × ℕ × List (Identity α)) :
    (l.foldl (Core.annihilatePair fresh pos) acc).1.coexistence_registry =
      acc.1.coexistence_registry := by
  induction l generalizing acc with
  | nil => rfl
  | cons x xs ih =>
    rw [List.foldl_cons, ih, annihilatePair_registry]

theorem processDetectionEvents_registry (fresh : ℕ → String)
    (e : Core.Engine α) :
    (Core.processDetectionEvents fresh e).coexistence_registry =
      e.coexistence_registry := by
  unfold Core.processDetectionEvents
  simp only
  have h : ∀ (m : List (Pos × List (Identity α)))
      (acc : Core.Engine α × ℕ × List (Identity α)),
      (m.foldl (fun acc pl =>
        if pl.2.length < 2 then acc
        else (Core.allPairs pl.2).foldl (Core.annihilatePair fresh pl.1) acc)
        acc).1.coexistence_registry = acc.1.coexistence_registry := by
    intro m
    induction m with
    | nil => intro acc; rfl
    | cons x xs ih =>
      intro acc
      rw [List.foldl_cons, ih]
      by_cases hx : x.2.length < 2
      · rw [if_pos hx]
      · rw [if_neg hx, annihilatePair_foldl_registry]
  exact h _ _

/-- C3 (amended): the engine never prunes the coexistence registry — the
registry records every id passed to `register_coexistence`, but removing an
identity (in particular annihilation inside `process_detection_events`)
leaves the registry unchanged, so the registry is not in general the set of
living identities at each position. -/
theorem claim_C3_coexistence_registry_amended (fresh : ℕ → String)
    (e : Core.Engine α) (p : Pos) (i : Identity α) :
    (Core.processDetectionEvents fresh e).coexistence_registry =
      e.coexistence_registry ∧
    i.unique_id ∈ (Core.registerCoexistence e.coexistence_registry p i).1 p := by
  refine ⟨processDetectionEvents_registry fresh e, ?_⟩
  unfold Core.registerCoexistence
  simp only [Function.update_same]
  by_cases h : i.unique_id ∈ e.coexistence_registry p
  · rw [if_pos h]; exact h
  · rw [if_neg h]
    exact List.mem_append_right _ (List.mem_singleton.mpr rfl)

/-- C3 counterexample to the claim as stated: after annihilation removes
identities `A` and `B`, the registry still lists them at `(1,1,1)` while
the only living identity is the new photon `P`. -/
theorem claim_C3_coexistence_registry_counterexample :
    ("A" ∈ (Core.processDetectionEvents Ex.freshP Ex.engA).coexistence_registry
      (1, 1, 1)) ∧
    (Core.processDetectionEvents Ex.freshP Ex.engA).identities.map
      (fun j => j.unique_id) = ["P"] ∧
    ("A" ∉ (Core.processDetectionEvents Ex.freshP Ex.engA).identities.map
      (fun j => j.unique_id)) := by
  refine ⟨?_, rfl, ?_⟩
  · rw [processDetectionEvents_registry]
    decide
  · rw [show (Core.processDetectionEvents Ex.freshP Ex.engA).identities.map
      (fun j => j.unique_id) = ["P"] from rfl]
    decide

theorem append_underscoreString_isEmpty_false (head t : String)
    (hh : head.data ≠ []) : (head ++ t).isEmpty = false := by
  rw [Bool.eq_false_iff]
  intro h
  have h2 : (head ++ t) = "" := (String.isEmpty_iff _).mp h
  have h3 : (head ++ t).data = ("" : String).data := by rw [h2]
  simp only [String.data_append] at h3
  rcases List.append_eq_nil.mp h3 with ⟨h4, -⟩
  exact hh h4

theorem mutateTail_get? (method : ConflictResolutionMethod)
    (l : List (Identity α)) (k n : ℕ) :
    (V002.mutateTail method k l).get? n =
      (l.get? n).map (V002.mutateOne method (k + n)) := by
  induction l generalizing k n with
  | nil => simp [V002.mutateTail]
  | cons x xs ih =>
    cases n with
    | zero => simp [V002.mutateTail]
    | succ n =>
      simp only [V002.mutateTail, List.get?_cons_succ]
      rw [ih]
      have hkn : k + 1 + n = k + (n + 1) := by omega
      rw [hkn]

theorem mutateTail_length (method : ConflictResolutionMethod)
    (l : List (Identity α)) (k : ℕ) :
    (V002.mutateTail method k l).length = l.length := by
  induction l generalizing k with
  | nil => rfl
  | cons x xs ih =>
    simp only [V002.mutateTail, List.length_cons, ih]

theorem underscore_toString_isEmpty (k : ℕ) :
    ("_" ++ toString k).isEmpty = false :=
  append_underscoreString_isEmpty_false "_" (toString k) (by decide)

theorem star_toString_isEmpty (k : ℕ) :
    ("*" ++ toString k).isEmpty = false :=
  append_underscoreString_isEmpty_false "*" (toString k) (by decide)

theorem mutateOne_symbolic_ancestry (k : ℕ) (x : Identity α) :
    (V002.mutateOne ConflictResolutionMethod.symbolicMutation k x).ancestry =
      x.ancestry ++ ("_" ++ toString k) := by
  unfold V002.mutateOne Identity.apply_symbolic_mutation
  simp [strTruthy, underscore_toString_isEmpty k]

theorem mutateOne_rename_tag (k : ℕ) (x : Identity α) :
    (V002.mutateOne ConflictResolutionMethod.identityRename k x).module_tag =
      x.module_tag ++ ("*" ++ toString k) := by
  unfold V002.mutateOne Identity.apply_symbolic_mutation
  simp [strTruthy, star_toString_isEmpty k]

theorem mutateOne_phase_theta (k : ℕ) (x : Identity α) :
    (V002.mutateOne ConflictResolutionMethod.phaseSeparation k x).theta =
      mod1 (x.theta + (k : α) * (2 / 100)) := rfl

/-- C5: when a detection event with at least two affected identities is
resolved, every affected identity except the first — in stable input
order, with 1-based index `i` — receives the configured mutation (ancestry
suffix `_i`, tag suffix `*i`, or phase shift `i * 0.02` mod 1), and every
affected identity (including the first) is marked with the method used. -/
theorem claim_C5_conflict_resolution_policy
    (method : ConflictResolutionMethod) (affected : List (Identity α))
    (h2 : 2 ≤ affected.length) :
    (V002.resolveAffected method affected).length = affected.length ∧
    (V002.resolveAffected method affected).get? 0 =
      (affected.get? 0).map (fun x =>
        { x with conflict_resolution_applied := some method }) ∧
    (∀ k : ℕ, (V002.resolveAffected method affected).get? (k + 1) =
      (affected.get? (k + 1)).map (fun x =>
        { V002.mutateOne method (k + 1) x with
          conflict_resolution_applied := some method })) ∧
    (∀ (k : ℕ) (x : Identity α),
      (V002.mutateOne ConflictResolutionMethod.symbolicMutation k x).ancestry =
        x.ancestry ++ ("_" ++ toString k)) ∧
    (∀ (k : ℕ) (x : Identity α),
      (V002.mutateOne ConflictResolutionMethod.identityRename k x).module_tag =
        x.module_tag ++ ("*" ++ toString k)) ∧
    (∀ (k : ℕ) (x : Identity α),
      (V002.mutateOne ConflictResolutionMethod.phaseSeparation k x).theta =
        mod1 (x.theta + (k : α) * (2 / 100))) := by
  have hne : affected ≠ [] := by
    intro h
    rw [h] at h2
    simp at h2
  obtain ⟨h0, t, rfl⟩ := List.exists_cons_of_ne_nil hne
  have hres : V002.resolveAffected method (h0 :: t) =
      (h0 :: V002.mutateTail method 1 t).map
        (fun i => { i with conflict_resolution_applied := some method }) := by
    unfold V002.resolveAffected
    rw [if_neg (by simp at h2 ⊢; omega)]
  refine ⟨?_, ?_, ?_, ?_, ?_, ?_⟩
  · rw [hres]
    simp [mutateTail_length]
  · rw [hres]
    simp
  · intro k
    rw [hres]
    rw [List.get?_map, List.get?_cons_succ, List.get?_cons_succ,
      mutateTail_get?]
    cases h : t.get? k <;> simp [Nat.add_comm 1 k]
  · intro k x
    apply mutateOne_symbolic_ancestry
  · intro k x
    apply mutateOne_rename_tag
  · intro k x
    apply mutateOne_phase_theta

/-- Witness for C5 on a concrete three-identity detection list. -/
theorem claim_C5_conflict_resolution_policy_witness :
    (V002.resolveAffected ConflictResolutionMethod.symbolicMutation
        [Ex.iA, Ex.iB, Ex.iC]).length =
      ([Ex.iA, Ex.iB, Ex.iC] : List (Identity ℚ)).length ∧
    (∀ k : ℕ, (V002.resolveAffected ConflictResolutionMethod.symbolicMutation
        [Ex.iA, Ex.iB, Ex.iC]).get? (k + 1) =
      (([Ex.iA, Ex.iB, Ex.iC] : List (Identity ℚ)).get? (k + 1)).map (fun x =>
        { V002.mutateOne ConflictResolutionMethod.symbolicMutation (k + 1) x with
          conflict_resolution_applied :=
            some ConflictResolutionMethod.symbolicMutation })) :=
  have h := claim_C5_conflict_resolution_policy
    ConflictResolutionMethod.symbolicMutation [Ex.iA, Ex.iB, Ex.iC] (by decide)
  ⟨h.1, h.2.2.1⟩

/-- C7 (amended): the decay law of `calculate_decay_probability` is
`P(t) = 1 - exp(-(t - t0)/L)` for `t > t0`, `0` for `t ≤ t0` (so
`P(t0) = 0`), `0` without a configured lifetime, monotonically nondecreasing
in the age with limit `1`; but the per-tick beta-decay check of the engine
evaluates the law with the creation tick hard-coded to `0`, which agrees
with the composite's creation tick only for composites created at tick 0. -/
theorem claim_C7_decay_law_amended (L : ℕ) (t t0 : ℤ) (hL : 0 < L) :
    (t0 < t → Decay.calculateDecayProbability Real.exp (some L) t t0 =
      1 - Real.exp (-(((t - t0 : ℤ) : ℝ) / (L : ℝ)))) ∧
    (t ≤ t0 → Decay.calculateDecayProbability Real.exp (some L) t t0 = 0) ∧
    Decay.calculateDecayProbability Real.exp none t t0 = 0 ∧
    (∀ t2 : ℤ, t ≤ t2 →
      Decay.calculateDecayProbability Real.exp (some L) t t0 ≤
        Decay.calculateDecayProbability Real.exp (some L) t2 t0) ∧
    Filter.Tendsto
      (fun k : ℕ =>
        Decay.calculateDecayProbability Real.exp (some L) (t0 + k) t0)
      Filter.atTop (nhds 1) ∧
    (∀ t4 : ℤ, Decay.processBetaDecayProbability Real.exp (some L) t4 =
      Decay.calculateDecayProbability Real.exp (some L) t4 0) := by
  have hLR : (0 : ℝ) < (L : ℝ) := by exact_mod_cast hL
  have hval : ∀ s s0 : ℤ, s0 < s →
      Decay.calculateDecayProbability Real.exp (some L) s s0 =
        1 - Real.exp (-(1 / (L : ℝ)) * ((s - s0 : ℤ) : ℝ)) := by
    intro s s0 hs
    unfold Decay.calculateDecayProbability
    dsimp only
    rw [if_neg (show ¬(s - s0 ≤ 0) by omega)]
  have hzero : ∀ s s0 : ℤ, s ≤ s0 →
      Decay.calculateDecayProbability Real.exp (some L) s s0 = 0 := by
    intro s s0 hs
    unfold Decay.calculateDecayProbability
    dsimp only
    rw [if_pos (show s - s0 ≤ 0 by omega)]
  refine ⟨?_, hzero t t0, rfl, ?_, ?_, fun t4 => rfl⟩
  · intro ht
    rw [hval t t0 ht]
    congr 1
    ring
  · intro t2 ht2
    by_cases h1 : t ≤ t0
    · rw [hzero t t0 h1]
      by_cases h2 : t2 ≤ t0
      · rw [hzero t2 t0 h2]
      · rw [hval t2 t0 (by omega)]
        have hexp : Real.exp (-(1 / (L : ℝ)) * ((t2 - t0 : ℤ) : ℝ)) ≤ 1 := by
          rw [Real.exp_le_one_iff]
          have hpos : (0 : ℝ) < ((t2 - t0 : ℤ) : ℝ) := by
            exact_mod_cast (by omega : (0 : ℤ) < t2 - t0)
          have : (0 : ℝ) < 1 / (L : ℝ) := by positivity
          nlinarith
        linarith
    · rw [hval t t0 (by omega), hval t2 t0 (by omega)]
      have harg : -(1 / (L : ℝ)) * ((t2 - t0 : ℤ) : ℝ) ≤
          -(1 / (L : ℝ)) * ((t - t0 : ℤ) : ℝ) := by
        have hle : ((t - t0 : ℤ) : ℝ) ≤ ((t2 - t0 : ℤ) : ℝ) := by
          exact_mod_cast (by omega : (t - t0 : ℤ) ≤ t2 - t0)
        have : (0 : ℝ) < 1 / (L : ℝ) := by positivity
        nlinarith
      have := Real.exp_le_exp.mpr harg
      linarith
  · have h0 : Filter.Tendsto (fun k : ℕ => ((k : ℝ) * (1 / (L : ℝ))))
        Filter.atTop Filter.atTop :=
      Filter.Tendsto.atTop_mul_const (by positivity)
        tendsto_natCast_atTop_atTop
    have h1 : Filter.Tendsto (fun k : ℕ => -((k : ℝ) * (1 / (L : ℝ))))
        Filter.atTop Filter.atBot :=
      Filter.tendsto_neg_atTop_atBot.comp h0
    have h2 : Filter.Tendsto
        (fun k : ℕ => Real.exp (-((k : ℝ) * (1 / (L : ℝ)))))
        Filter.atTop (nhds 0) :=
      Real.tendsto_exp_atBot.comp h1
    have h3 : Filter.Tendsto
        (fun k : ℕ => 1 - Real.exp (-((k : ℝ) * (1 / (L : ℝ)))))
        Filter.atTop (nhds (1 - 0)) :=
      Filter.Tendsto.const_sub 1 h2
    rw [sub_zero] at h3
    refine Filter.Tendsto.congr' ?_ h3
    rw [Filter.eventuallyEq_iff_exists_mem]
    refine ⟨{k : ℕ | 1 ≤ k}, Filter.mem_atTop 1, ?_⟩
    intro k hk
    have hklt : t0 < t0 + (k : ℤ) := by
      have : (1 : ℤ) ≤ (k : ℤ) := by exact_mod_cast hk
      omega
    show 1 - Real.exp (-((k : ℝ) * (1 / (L : ℝ)))) =
      Decay.calculateDecayProbability Real.exp (some L) (t0 + (k : ℤ)) t0
    rw [hval (t0 + k) t0 hklt]
    congr 1
    have : ((t0 + (k : ℤ) - t0 : ℤ) : ℝ) = (k : ℝ) := by
      push_cast
      ring
    rw [this]
    ring

/-- Witness for C7 (amended) at `L = 1`, `t = 5`, `t0 = 0`. -/
theorem claim_C7_decay_law_amended_witness :
    (Decay.calculateDecayProbability Real.exp (some 1) 5 5 = 0) ∧
    (∀ t4 : ℤ, Decay.processBetaDecayProbability Real.exp (some 1) t4 =
      Decay.calculateDecayProbability Real.exp (some 1) t4 0) :=
  have h := claim_C7_decay_law_amended 1 5 5 (by norm_num)
  ⟨h.2.1 (le_refl 5), h.2.2.2.2.2⟩

/-- C7 counterexample to the claim as stated: for a composite created at
tick `5` with lifetime `1`, at tick `5` the engine's evaluated probability
(creation tick hard-coded to `0`) is `1 - exp(-5) ≠ 0`, while the claimed
law with `t0` equal to the creation tick gives `P(t0) = 0`. -/
theorem claim_C7_decay_law_counterexample :
    Decay.processBetaDecayProbability Real.exp (some 1) 5 ≠
      Decay.calculateDecayProbability Real.exp (some 1) 5 5 := by
  unfold Decay.processBetaDecayProbability Decay.calculateDecayProbability
  simp only
  rw [if_pos (by norm_num : (5 - 5 : ℤ) ≤ 0),
    if_neg (by norm_num : ¬(5 - 0 : ℤ) ≤ 0)]
  have h1 : Real.exp (-(1 / ((1 : ℕ) : ℝ)) * ((5 - 0 : ℤ) : ℝ)) < 1 := by
    rw [Real.exp_lt_one_iff]
    norm_num
  intro heq
  rw [sub_eq_zero] at heq
  linarith

/-- C8: when the engine's identity list consists of an identity and its
antiparticle at the same position, `process_detection_events` removes both
and creates exactly one photon identity there whose pattern carries the sum
of the two individually computed pre-annihilation energies, and the tick
snapshot records that sum as `energy_released_total` (and as
`photon_energy_total`). -/
theorem claim_C8_annihilation_energy
    (fresh : ℕ → String) (e : Core.Engine α) (a b : Identity α)
    (rest : List (Identity α)) (p : Pos)
    (hids : e.identities = a :: b :: rest)
    (hrest : ∀ r ∈ rest, r.position = none)
    (hpa : a.position = some p) (hpb : b.position = some p)
    (hanti : (a.is_antiparticle ∧ a.antiparticle_of = some b.unique_id) ∨
             (b.is_antiparticle ∧ b.antiparticle_of = some a.unique_id))
    (hev : e.detection_events = []) :
    (Core.processDetectionEvents fresh e).identities =
      rest ++ [Core.mkPhotonIdentity
        (Core.calculateParticleEnergy e.config e.center e.echo_fields a +
         Core.calculateParticleEnergy e.config e.center e.echo_fields b)
        p (fresh 0)] ∧
    (Core.mkPhotonIdentity
        (Core.calculateParticleEnergy e.config e.center e.echo_fields a +
         Core.calculateParticleEnergy e.config e.center e.echo_fields b)
        p (fresh 0)).position = some p ∧
    (Core.mkPhotonIdentity
        (Core.calculateParticleEnergy e.config e.center e.echo_fields a +
         Core.calculateParticleEnergy e.config e.center e.echo_fields b)
        p (fresh 0)).fundamental_particle =
      some (createPhoton
        (Core.calculateParticleEnergy e.config e.center e.echo_fields a +
         Core.calculateParticleEnergy e.config e.center e.echo_fields b)) ∧
    (createPhoton
        (Core.calculateParticleEnergy e.config e.center e.echo_fields a +
         Core.calculateParticleEnergy e.config e.center e.echo_fields b)
      ).energy_content =
      Core.calculateParticleEnergy e.config e.center e.echo_fields a +
        Core.calculateParticleEnergy e.config e.center e.echo_fields b ∧
    (Core.recordTickResults
        (Core.processDetectionEvents fresh e)).results_history =
      e.results_history ++
        [{ tick := e.tick
           energy_before := e.current_tick_energy_before
           energy_after := e.current_tick_energy_after
           energy_released_total := 0 +
             (Core.calculateParticleEnergy e.config e.center e.echo_fields a +
              Core.calculateParticleEnergy e.config e.center e.echo_fields b)
           photon_energy_total := 0 +
             (Core.calculateParticleEnergy e.config e.center e.echo_fields a +
              Core.calculateParticleEnergy e.config e.center e.echo_fields b) }] := by
  have hskip : ∀ (rs : List (Identity α)), (∀ r ∈ rs, r.position = none) →
      ∀ m : List (Pos × List (Identity α)),
        rs.foldl Core.posMapStep m = m := by
    intro rs
    induction rs with
    | nil => intro _ m; rfl
    | cons r rs2 ih =>
      intro h m
      rw [List.foldl_cons]
      rw [show Core.posMapStep m r = m from by
        unfold Core.posMapStep
        rw [h r (List.mem_cons_self r rs2)]]
      exact ih (fun x hx => h x (List.mem_cons_of_mem r hx)) m
  have hmap : Core.buildPositionMap e.identities = [(p, [a, b])] := by
    rw [hids]
    unfold Core.buildPositionMap
    rw [List.foldl_cons, List.foldl_cons]
    rw [show Core.posMapStep [] a = [(p, [a])] from by
      unfold Core.posMapStep
      rw [hpa]
      rfl]
    rw [show Core.posMapStep [(p, [a])] b = [(p, [a, b])] from by
      unfold Core.posMapStep
      rw [hpb]
      unfold Core.insertPosMap
      rw [if_pos rfl]
      rfl]
    exact hskip rest hrest _
  have hpairs : Core.allPairs [a, b] = [(a, b)] := by
    unfold Core.allPairs Core.allPairs Core.allPairs
    simp
  have hstep : Core.processDetectionEvents fresh e =
      { e with
        identities := rest ++ [Core.mkPhotonIdentity
          (Core.calculateParticleEnergy e.config e.center e.echo_fields a +
           Core.calculateParticleEnergy e.config e.center e.echo_fields b)
          p (fresh 0)]
        detection_events := e.detection_events ++
          [{ event_type := DetectionEventType.particleCollision
             position := p
             tick := e.tick
             trigger_id := some a.unique_id
             affected_ids := [b.unique_id]
             resolution_method := some ConflictResolutionMethod.exclusion
             energy_released := some
               (Core.calculateParticleEnergy e.config e.center e.echo_fields a +
                Core.calculateParticleEnergy e.config e.center e.echo_fields b)
             photon_id := some (Core.mkPhotonIdentity
               (Core.calculateParticleEnergy e.config e.center e.echo_fields a +
                Core.calculateParticleEnergy e.config e.center e.echo_fields b)
               p (fresh 0)).unique_id
             photon_energy := some (createPhoton
               (Core.calculateParticleEnergy e.config e.center e.echo_fields a +
                Core.calculateParticleEnergy e.config e.center e.echo_fields b)
               ).energy_content }]
        conflict_resolutions := e.conflict_resolutions ++
          [{ tick := e.tick
             position := p
             method := "annihilation"
             energy_released :=
               Core.calculateParticleEnergy e.config e.center e.echo_fields a +
                 Core.calculateParticleEnergy e.config e.center e.echo_fields b }] } := by
    unfold Core.processDetectionEvents
    dsimp only
    rw [hmap]
    simp only [List.foldl_cons, List.foldl_nil]
    rw [if_neg (by simp)]
    rw [hpairs]
    simp only [List.foldl_cons, List.foldl_nil]
    unfold Core.annihilatePair
    dsimp only
    rw [if_pos hanti]
    dsimp only
    rw [hids]
    simp only [List.cons_append, List.nil_append, List.foldl_cons,
      List.foldl_nil, List.erase_cons_head]
  refine ⟨?_, rfl, rfl, rfl, ?_⟩
  · rw [hstep]
  · rw [hstep]
    unfold Core.recordTickResults
    dsimp only
    rw [hev]
    simp only [List.nil_append, List.foldl_cons, List.foldl_nil,
      Option.getD_some]
    rfl

/-- Witness for C8 at the concrete engine `engA` (identities `A` and its
antiparticle `B` at `(1,1,1)`). -/
theorem claim_C8_annihilation_energy_witness :
    (Core.processDetectionEvents Ex.freshP Ex.engA).identities =
      [] ++ [Core.mkPhotonIdentity
        (Core.calculateParticleEnergy Ex.engA.config Ex.engA.center
            Ex.engA.echo_fields Ex.iA +
         Core.calculateParticleEnergy Ex.engA.config Ex.engA.center
            Ex.engA.echo_fields Ex.iB)
        (1, 1, 1) (Ex.freshP 0)] ∧
    (createPhoton
        (Core.calculateParticleEnergy Ex.engA.config Ex.engA.center
            Ex.engA.echo_fields Ex.iA +
         Core.calculateParticleEnergy Ex.engA.config Ex.engA.center
            Ex.engA.echo_fields Ex.iB)).energy_content =
      Core.calculateParticleEnergy Ex.engA.config Ex.engA.center
          Ex.engA.echo_fields Ex.iA +
        Core.calculateParticleEnergy Ex.engA.config Ex.engA.center
          Ex.engA.echo_fields Ex.iB :=
  have h := claim_C8_annihilation_energy Ex.freshP Ex.engA Ex.iA Ex.iB []
    (1, 1, 1) rfl (by intro r hr; cases hr) rfl rfl (Or.inr ⟨rfl, rfl⟩) rfl
  ⟨h.1, h.2.2.2.1⟩

theorem hasIdenticalPair_sound (ε : α) (rest : List (Identity α)) :
    ∀ acc : List (Identity α),
      (∀ o ∈ acc, o.conflict_resolution_applied = none) →
      V002.hasIdenticalPair ε acc rest = true →
      ∃ o x, ((o ∈ acc ∧ x ∈ rest) ∨ [o, x].Sublist rest) ∧
        o.conflict_resolution_applied = none ∧
        x.conflict_resolution_applied = none ∧
        o.ancestry = x.ancestry ∧ |o.theta - x.theta| < ε := by
  induction rest with
  | nil =>
    intro acc hacc h
    simp [V002.hasIdenticalPair] at h
  | cons i rest ih =>
    intro acc hacc h
    rw [show V002.hasIdenticalPair ε acc (i :: rest) =
        (if i.conflict_resolution_applied = none then
          (if acc.any (fun o =>
              decide (i.ancestry = o.ancestry ∧ |i.theta - o.theta| < ε)) then
            true
          else V002.hasIdenticalPair ε (acc ++ [i]) rest)
        else V002.hasIdenticalPair ε acc rest) from rfl] at h
    by_cases hres : i.conflict_resolution_applied = none
    · rw [if_pos hres] at h
      by_cases hany : acc.any (fun o =>
          decide (i.ancestry = o.ancestry ∧ |i.theta - o.theta| < ε)) = true
      · obtain ⟨o, ho, hdec⟩ := List.any_eq_true.mp hany
        have hprops := of_decide_eq_true hdec
        refine ⟨o, i, Or.inl ⟨ho, List.mem_cons_self i rest⟩, hacc o ho, hres,
          hprops.1.symm, ?_⟩
        rw [abs_sub_comm]
        exact hprops.2
      · rw [if_neg hany] at h
        have hacc1 : ∀ o ∈ acc ++ [i], o.conflict_resolution_applied = none := by
          intro o ho
          rcases List.mem_append.mp ho with ho1 | ho2
          · exact hacc o ho1
          · rw [List.mem_singleton.mp ho2]
            exact hres
        obtain ⟨o, x, hmem, ho, hx, hanc, hth⟩ := ih (acc ++ [i]) hacc1 h
        rcases hmem with ⟨hoacc, hxrest⟩ | hsub
        · rcases List.mem_append.mp hoacc with hoacc1 | hoi
          · exact ⟨o, x, Or.inl ⟨hoacc1, List.mem_cons_of_mem _ hxrest⟩,
              ho, hx, hanc, hth⟩
          · have hoe : o = i := List.mem_singleton.mp hoi
            subst hoe
            exact ⟨o, x,
              Or.inr (List.Sublist.cons₂ o (List.singleton_sublist.mpr hxrest)),
              ho, hx, hanc, hth⟩
        · exact ⟨o, x, Or.inr (hsub.cons i), ho, hx, hanc, hth⟩
    · rw [if_neg hres] at h
      obtain ⟨o, x, hmem, ho, hx, hanc, hth⟩ := ih acc hacc h
      rcases hmem with ⟨hoacc, hxrest⟩ | hsub
      · exact ⟨o, x, Or.inl ⟨hoacc, List.mem_cons_of_mem _ hxrest⟩,
          ho, hx, hanc, hth⟩
      · exact ⟨o, x, Or.inr (hsub.cons i), ho, hx, hanc, hth⟩

theorem checkDetectionRequired_sound (s : V002.State α) (p : Pos)
    (h : V002.checkDetectionRequired s p = true) :
    2 ≤ (V002.getCoexisting s p).length ∧
    ∃ o x, [o, x].Sublist (V002.getCoexisting s p) ∧
      o.conflict_resolution_applied = none ∧
      x.conflict_resolution_applied = none ∧
      o.ancestry = x.ancestry ∧
      |o.theta - x.theta| < s.config.epsilon := by
  unfold V002.checkDetectionRequired at h
  dsimp only at h
  by_cases hlen : 1 < (V002.getCoexisting s p).length
  · rw [if_pos hlen] at h
    obtain ⟨o, x, hmem, ho, hx, hanc, hth⟩ :=
      hasIdenticalPair_sound s.config.epsilon (V002.getCoexisting s p) []
        (by intro o ho; cases ho) h
    rcases hmem with ⟨hoacc, -⟩ | hsub
    · cases hoacc
    · exact ⟨by omega, o, x, hsub, ho, hx, hanc, hth⟩
  · rw [if_neg hlen] at h
    cases h

theorem resolveEvent_events (st : V002.State α) (ev : V002.Event α) :
    (V002.resolveEvent st ev).detection_events = st.detection_events := by
  unfold V002.resolveEvent
  dsimp only
  split
  · rfl
  · rfl

theorem resolveEvent_config (st : V002.State α) (ev : V002.Event α) :
    (V002.resolveEvent st ev).config = st.config := by
  unfold V002.resolveEvent
  dsimp only
  split
  · rfl
  · rfl

theorem detectionStep_events (st : V002.State α) (p : Pos) :
    (V002.detectionStep st p).detection_events = st.detection_events ++
      (if V002.checkDetectionRequired st p then [V002.mkProbeEvent st p]
       else []) := by
  unfold V002.detectionStep
  by_cases hchk : V002.checkDetectionRequired st p = true
  · rw [if_pos hchk, if_pos hchk]
    dsimp only
    by_cases htrig : st.config.detection_triggers_mutation = true
    · rw [if_pos htrig, resolveEvent_events]
    · rw [if_neg htrig]
  · rw [if_neg (by simpa using hchk), if_neg (by simpa using hchk),
      List.append_nil]

theorem detectionStep_config (st : V002.State α) (p : Pos) :
    (V002.detectionStep st p).config = st.config := by
  unfold V002.detectionStep
  by_cases hchk : V002.checkDetectionRequired st p = true
  · rw [if_pos hchk]
    dsimp only
    by_cases htrig : st.config.detection_triggers_mutation = true
    · rw [if_pos htrig, resolveEvent_config]
    · rw [if_neg htrig]
  · rw [if_neg (by simpa using hchk)]

theorem foldl_detectionStep_count (ks : List Pos) (st : V002.State α)
    (p : Pos) :
    ((ks.foldl V002.detectionStep st).detection_events.filter
      (fun ev => decide (ev.position = p))).length ≤
    (st.detection_events.filter
      (fun ev => decide (ev.position = p))).length +
      ks.countP (fun k => decide (k = p)) := by
  induction ks generalizing st with
  | nil => simp
  | cons k ks ih =>
    rw [List.foldl_cons]
    refine le_trans (ih (V002.detectionStep st k)) ?_
    have hstep : ((V002.detectionStep st k).detection_events.filter
        (fun ev => decide (ev.position = p))).length ≤
        (st.detection_events.filter
          (fun ev => decide (ev.position = p))).length +
          (if k = p then 1 else 0) := by
      rw [detectionStep_events, List.filter_append, List.length_append]
      by_cases hchk : V002.checkDetectionRequired st k = true
      · rw [if_pos hchk]
        by_cases hkp : k = p
        · rw [if_pos hkp]
          simp [V002.mkProbeEvent, hkp]
        · rw [if_neg hkp]
          simp [V002.mkProbeEvent, hkp]
      · rw [if_neg (by simpa using hchk)]
        simp
    have hcount : (k :: ks).countP (fun x => decide (x = p)) =
        ks.countP (fun x => decide (x = p)) + (if k = p then 1 else 0) := by
      rw [List.countP_cons]
      rcases Classical.em (k = p) with hkp | hkp
      · rw [if_pos hkp, if_pos (by simpa using hkp)]
      · rw [if_neg hkp, if_neg (by simpa using hkp)]
    omega

theorem nodup_countP_eq_le_one (p : Pos) (l : List Pos) :
    l.Nodup → l.countP (fun k => decide (k = p)) ≤ 1 := by
  induction l with
  | nil => intro _; simp
  | cons k ks ih =>
    intro hnd
    obtain ⟨hk, hks⟩ := List.nodup_cons.mp hnd
    rw [List.countP_cons]
    by_cases hkp : k = p
    · have hzero : ks.countP (fun x => decide (x = p)) = 0 := by
        apply List.countP_eq_zero.mpr
        intro x hx
        simp only [decide_eq_true_eq]
        intro hxp
        apply hk
        rw [← hkp] at hxp
        rw [hxp] at hx
        exact hx
      rw [hzero, if_pos (by simpa using hkp)]
    · rw [if_neg (by simpa using hkp)]
      simpa using ih hks

theorem foldl_detectionStep_events_sound (ks : List Pos) (c : Config α) :
    ∀ st : V002.State α, st.config = c →
      (∀ ev ∈ st.detection_events,
        ∃ o x, [o, x].Sublist ev.affected_identities ∧
          o.conflict_resolution_applied = none ∧
          x.conflict_resolution_applied = none ∧
          o.ancestry = x.ancestry ∧ |o.theta - x.theta| < c.epsilon) →
      ∀ ev ∈ (ks.foldl V002.detectionStep st).detection_events,
        ∃ o x, [o, x].Sublist ev.affected_identities ∧
          o.conflict_resolution_applied = none ∧
          x.conflict_resolution_applied = none ∧
          o.ancestry = x.ancestry ∧ |o.theta - x.theta| < c.epsilon := by
  induction ks with
  | nil => intro st _ hinv; exact hinv
  | cons k ks ih =>
    intro st hc hinv
    rw [List.foldl_cons]
    refine ih (V002.detectionStep st k) (by rw [detectionStep_config, hc]) ?_
    intro ev hev
    rw [detectionStep_events] at hev
    rcases List.mem_append.mp hev with h1 | h2
    · exact hinv ev h1
    · by_cases hchk : V002.checkDetectionRequired st k = true
      · rw [if_pos hchk] at h2
        have hev2 : ev = V002.mkProbeEvent st k := List.mem_singleton.mp h2
        subst hev2
        obtain ⟨-, o, x, hsub, ho, hx, hanc, hth⟩ :=
          checkDetectionRequired_sound st k hchk
        rw [hc] at hth
        exact ⟨o, x, hsub, ho, hx, hanc, hth⟩
      · rw [if_neg (by simpa using hchk)] at h2
        cases h2

/-- C4: detection in `versions/002` is raised for a position only if more
than one identity coexists there with an unresolved identical pair (equal
ancestry, phase difference below epsilon) among them — in particular it
never fires with fewer than two co-located identities, identities already
marked with a resolution method are excluded, every raised event's affected
identities contain such an unresolved pair, and with distinct registry keys
at most one event is raised per position per tick. -/
theorem claim_C4_detection_event_conditions (s : V002.State α) (p : Pos) :
    ((V002.getCoexisting s p).length < 2 →
      V002.checkDetectionRequired s p = false) ∧
    (V002.checkDetectionRequired s p = true →
      2 ≤ (V002.getCoexisting s p).length ∧
      ∃ o x, [o, x].Sublist (V002.getCoexisting s p) ∧
        o.conflict_resolution_applied = none ∧
        x.conflict_resolution_applied = none ∧
        o.ancestry = x.ancestry ∧
        |o.theta - x.theta| < s.config.epsilon) ∧
    (s.detection_events = [] →
      (s.coexistence_registry.map Prod.fst).Nodup →
      ((V002.processDetectionEvents s).detection_events.filter
        (fun ev => decide (ev.position = p))).length ≤ 1) ∧
    (s.detection_events = [] →
      ∀ ev ∈ (V002.processDetectionEvents s).detection_events,
        ∃ o x, [o, x].Sublist ev.affected_identities ∧
          o.conflict_resolution_applied = none ∧
          x.conflict_resolution_applied = none ∧
          o.ancestry = x.ancestry ∧
          |o.theta - x.theta| < s.config.epsilon) := by
  refine ⟨?_, checkDetectionRequired_sound s p, ?_, ?_⟩
  · intro hlen
    unfold V002.checkDetectionRequired
    dsimp only
    rw [if_neg (by omega)]
  · intro hev hnd
    unfold V002.processDetectionEvents
    refine le_trans (foldl_detectionStep_count _ s p) ?_
    rw [hev]
    simp only [List.filter_nil, List.length_nil, Nat.zero_add]
    exact nodup_countP_eq_le_one p _ hnd
  · intro hev
    unfold V002.processDetectionEvents
    refine foldl_detectionStep_events_sound _ s.config s rfl ?_
    rw [hev]
    intro ev h
    cases h

/-- Witness for C4 at the concrete state `stB`: position `(9,9,9)` has no
co-located identities so detection is off there; position `(1,1,1)` has the
unresolved identical pair, and at most one event is raised for it. -/
theorem claim_C4_detection_event_conditions_witness :
    V002.checkDetectionRequired Ex.stB (9, 9, 9) = false ∧
    (2 ≤ (V002.getCoexisting Ex.stB (1, 1, 1)).length ∧
      ∃ o x, [o, x].Sublist (V002.getCoexisting Ex.stB (1, 1, 1)) ∧
        o.conflict_resolution_applied = none ∧
        x.conflict_resolution_applied = none ∧
        o.ancestry = x.ancestry ∧
        |o.theta - x.theta| < Ex.stB.config.epsilon) ∧
    ((V002.processDetectionEvents Ex.stB).detection_events.filter
      (fun ev => decide (ev.position = ((1, 1, 1) : Pos)))).length ≤ 1 :=
  ⟨(claim_C4_detection_event_conditions Ex.stB (9, 9, 9)).1 (by decide),
   (claim_C4_detection_event_conditions Ex.stB (1, 1, 1)).2.1 (by
     simp [V002.checkDetectionRequired, V002.getCoexisting, V002.lookupRegistry,
       V002.getIdentityById, V002.hasIdenticalPair, Ex.stB, Ex.iA, Ex.iB,
       Ex.cfg, List.find?, List.filterMap]),
   (claim_C4_detection_event_conditions Ex.stB (1, 1, 1)).2.2.1 rfl
     (by decide)⟩

end Theorems

end ETM
